import Mathlib

/-!
Verification development for the `bevy_cosmic_edit` text-widget core.

The Rust source is shallowly embedded:
* Rust `String` is modelled as `List Char` (Unicode scalar values); UTF-8 byte
  lengths are computed explicitly where the source works with byte indices.
* Fallible operations (Rust panics such as `String.truncate` off a character
  boundary, or slice indexing out of bounds) are modelled with `Option`.
* `f32` arithmetic is modelled exactly over `ℚ`; the float-to-`u8` `as` cast
  (truncate toward zero, saturating) is modelled explicitly.
-/

namespace BevyCosmicEdit

/-- Number of bytes of the UTF-8 encoding of a Unicode scalar value, as used by
Rust `char::len_utf8`. -/
def utf8Len (c : Char) : Nat :=
  if c.toNat < 0x80 then 1
  else if c.toNat < 0x800 then 2
  else if c.toNat < 0x10000 then 3
  else 4

/-- UTF-8 byte length of a string (Rust `String::len`). -/
def byteLen (s : List Char) : Nat := (s.map utf8Len).sum

/-- Rust `String::truncate (new_len)`: shortens the string to at most `new_len`
BYTES.  A no-op when `new_len` is at least the byte length; panics (modelled as
`none`) when `new_len` is not on a character boundary. -/
def strTruncate : List Char → Nat → Option (List Char)
  | _, 0 => some []
  | [], _ + 1 => some []
  | c :: cs, n + 1 =>
    if utf8Len c ≤ n + 1 then (strTruncate cs (n + 1 - utf8Len c)).map (fun t => c :: t)
    else none

/-- The `CosmicText` enum from `lib.rs`: a single run with one attribute set, or
a sequence of lines, each a sequence of (string, attributes) runs.  Attribute
sets are opaque values, hence the type parameter. -/
inductive CosmicText (α : Type) where
  | OneStyle : List Char → CosmicText α
  | MultiStyle : List (List (List Char × α)) → CosmicText α
deriving DecidableEq

/-- The `for c in string.chars()` scan of the `OneStyle` branch of `_trim_text`:
walks the characters keeping a 1-based character position `charPos` and a
newline count `lineAcc`; on reaching the `maxLines`-th newline it reports the
character position just after that newline (the argument later fed to
`String::truncate` as a BYTE index).  `none` when the scan runs off the end. -/
def newlineScanPos : List Char → Nat → Nat → Nat → Option Nat
  | [], _, _, _ => none
  | c :: cs, charPos, lineAcc, maxLines =>
    if c = '\n' then
      if lineAcc + 1 ≥ maxLines then some (charPos + 1)
      else newlineScanPos cs (charPos + 1) (lineAcc + 1) maxLines
    else newlineScanPos cs (charPos + 1) lineAcc maxLines

/-- The `for c in string.chars()` scan inside the `MultiStyle` branch of
`_trim_text`: counts newlines of a truncated run, bumping both the line and the
character accumulators once per newline, breaking once `lineAcc` reaches
`maxLines`.  Returns the updated `(lineAcc, charAcc)`. -/
def scanNewlines : List Char → Nat → Nat → Nat → Nat × Nat
  | [], lineAcc, charAcc, _ => (lineAcc, charAcc)
  | c :: cs, lineAcc, charAcc, maxLines =>
    if c = '\n' then
      if lineAcc + 1 ≥ maxLines then (lineAcc + 1, charAcc + 1)
      else scanNewlines cs (lineAcc + 1) (charAcc + 1) maxLines
    else scanNewlines cs lineAcc charAcc maxLines

/-- The inner `for (string, attrs) in line.iter()` loop of the `MultiStyle`
branch of `_trim_text`: truncates runs against the remaining character budget,
threading `(charAcc, lineAcc)`; returns the kept runs and the final
accumulators.  `none` models a `String::truncate` panic. -/
def trimRuns (maxChars maxLines : Nat) {α : Type} :
    List (List Char × α) → Nat → Nat → Option (List (List Char × α) × Nat × Nat)
  | [], charAcc, lineAcc => some ([], charAcc, lineAcc)
  | (s, a) :: rest, charAcc, lineAcc =>
    if maxChars > 0 ∧ charAcc ≥ maxChars then some ([], charAcc, lineAcc)
    else
      match (if maxChars > 0 then strTruncate s (maxChars - charAcc) else some s) with
      | none => none
      | some s1 =>
        let charAcc1 := if maxChars > 0 then charAcc + byteLen s1 else charAcc
        let p := if maxLines > 0 then scanNewlines s1 lineAcc charAcc1 maxLines
                 else (lineAcc, charAcc1)
        match trimRuns maxChars maxLines rest p.2 p.1 with
        | none => none
        | some (strs, cAcc, lAcc) => some ((s1, a) :: strs, cAcc, lAcc)

/-- The outer `for line in lines.iter()` loop of the `MultiStyle` branch of
`_trim_text`: bumps the line counter and the character counter once per line,
breaks when either limit is reached, and otherwise trims the line's runs. -/
def trimLines (maxChars maxLines : Nat) {α : Type} :
    List (List (List Char × α)) → Nat → Nat → Option (List (List (List Char × α)))
  | [], _, _ => some []
  | line :: rest, charAcc, lineAcc =>
    if (maxLines > 0 ∧ lineAcc + 1 ≥ maxLines) ∨ (maxChars > 0 ∧ charAcc + 1 ≥ maxChars) then
      some []
    else
      match trimRuns maxChars maxLines line (charAcc + 1) (lineAcc + 1) with
      | none => none
      | some (strs, cAcc, lAcc) =>
        match trimLines maxChars maxLines rest cAcc lAcc with
        | none => none
        | some out => some (strs :: out)

/-- The function `_trim_text` from `lib.rs` (value 0 of a limit = unlimited);
`none` models a panic of `String::truncate` at a non-boundary byte index. -/
def _trim_text {α : Type} (text : CosmicText α) (maxChars maxLines : Nat) :
    Option (CosmicText α) :=
  if maxChars = 0 ∧ maxLines = 0 then some text
  else
    match text with
    | .OneStyle s =>
      match (if maxChars ≠ 0 then strTruncate s maxChars else some s) with
      | none => none
      | some s1 =>
        if maxLines = 0 then some (.OneStyle s1)
        else
          match newlineScanPos s1 0 0 maxLines with
          | none => some (.OneStyle s1)
          | some p =>
            match strTruncate s1 p with
            | none => none
            | some s2 => some (.OneStyle s2)
    | .MultiStyle lines =>
      match trimLines maxChars maxLines lines 0 0 with
      | none => none
      | some out => some (.MultiStyle out)

/-- Specification-side description of the `OneStyle` line clamp, written from
the spec's words for the amended claim: keep characters up to and including the
`n`-th newline (`n ≥ 1`), the whole string when fewer newlines occur. -/
def takeThroughNewlines : List Char → Nat → List Char
  | [], _ => []
  | c :: cs, n =>
    if c = '\n' then
      if n ≤ 1 then [c] else c :: takeThroughNewlines cs (n - 1)
    else c :: takeThroughNewlines cs n

/-- Logical content of a `MultiStyle` line list: runs concatenated, lines joined
with a newline separator. -/
def joinLines {α : Type} (lines : List (List (List Char × α))) : List Char :=
  List.intercalate ['\n'] (lines.map (fun line => (line.map Prod.fst).flatten))

/-- Logical content of a `CosmicText` value. -/
def textContent {α : Type} : CosmicText α → List Char
  | .OneStyle s => s
  | .MultiStyle lines => joinLines lines

/-! Lemmas about the string model. -/

theorem strTruncate_ascii :
    ∀ (s : List Char), (∀ c ∈ s, utf8Len c = 1) → ∀ n, strTruncate s n = some (s.take n)
  | [], _, 0 => rfl
  | [], _, _ + 1 => rfl
  | _ :: _, _, 0 => rfl
  | c :: cs, h, n + 1 => by
    have hc : utf8Len c = 1 := h c (List.mem_cons_self c cs)
    have ih := strTruncate_ascii cs (fun d hd => h d (List.mem_cons_of_mem c hd)) n
    simp [strTruncate, hc, ih]

theorem newlineScanPos_spec :
    ∀ (t : List Char) (pos la n : Nat), la < n →
      (newlineScanPos t pos la n = none → takeThroughNewlines t (n - la) = t) ∧
      (∀ p, newlineScanPos t pos la n = some p →
        pos ≤ p ∧ p - pos ≤ t.length ∧ t.take (p - pos) = takeThroughNewlines t (n - la))
  | [], pos, la, n, _ => by
    constructor
    · intro _; rfl
    · intro p hp; simp [newlineScanPos] at hp
  | c :: cs, pos, la, n, hla => by
    by_cases hc : c = '\n'
    · by_cases hstop : la + 1 ≥ n
      · have hn : n - la = 1 := by omega
        constructor
        · intro hnone
          simp [newlineScanPos, hc, hstop] at hnone
        · intro p hp
          simp only [newlineScanPos, hc, if_true, if_pos hstop] at hp
          have hp1 : p = pos + 1 := by
            simpa using hp.symm
          subst hp1
          refine ⟨by omega, ?_, ?_⟩
          · simp only [List.length_cons]; omega
          · have h1 : pos + 1 - pos = 1 := by omega
            rw [h1]
            simp [takeThroughNewlines, hn, hc]
      · have hlt : la + 1 < n := by omega
        have ih := newlineScanPos_spec cs (pos + 1) (la + 1) n hlt
        have hn2 : n - (la + 1) = n - la - 1 := by omega
        have httn : takeThroughNewlines (c :: cs) (n - la) =
            c :: takeThroughNewlines cs (n - la - 1) := by
          have : ¬ (n - la ≤ 1) := by omega
          simp [takeThroughNewlines, hc, this]
        constructor
        · intro hnone
          simp only [newlineScanPos, hc, if_true, if_neg hstop] at hnone
          have hcs := ih.1 hnone
          rw [hn2] at hcs
          rw [httn, hcs]
        · intro p hp
          simp only [newlineScanPos, hc, if_true, if_neg hstop] at hp
          obtain ⟨h1, h2, h3⟩ := ih.2 p hp
          refine ⟨by omega, by simp only [List.length_cons]; omega, ?_⟩
          have hk : p - pos = (p - (pos + 1)) + 1 := by omega
          rw [hk, List.take_succ_cons, httn]
          rw [hn2] at h3
          rw [h3]
    · have ih := newlineScanPos_spec cs (pos + 1) la n hla
      have httn : takeThroughNewlines (c :: cs) (n - la) =
          c :: takeThroughNewlines cs (n - la) := by
        simp [takeThroughNewlines, hc]
      constructor
      · intro hnone
        simp only [newlineScanPos, hc, if_false] at hnone
        rw [httn, ih.1 hnone]
      · intro p hp
        simp only [newlineScanPos, hc, if_false] at hp
        obtain ⟨h1, h2, h3⟩ := ih.2 p hp
        refine ⟨by omega, by simp only [List.length_cons]; omega, ?_⟩
        have hk : p - pos = (p - (pos + 1)) + 1 := by omega
        rw [hk, List.take_succ_cons, httn, h3]

/-! Claims C1 and C2: truncation policy of `_trim_text`. -/

/-- C1 counterexample: the claim says truncation keeps the first `max_chars`
characters counted UTF-8-safely, so `OneStyle("é")` with `max_chars = 1` would
keep the single character "é"; the code instead calls `String::truncate(1)`,
which is a BYTE index falling inside the two-byte character and panics
(modelled as `none`). -/
theorem trim_one_style_char_count_fails :
    _trim_text (α := Unit) (.OneStyle ['é']) 1 0 ≠
      some (.OneStyle (List.take 1 ['é'])) := by
  decide

/-- C1 (amended): for every `OneStyle` string, truncation keeps the longest
prefix of at most `max_chars` BYTES (a panic when `max_chars` splits a
multi-byte character); for strings of single-byte characters this keeps exactly
the first `max_chars` characters, after which, when `max_lines > 0` is
exceeded, the string is hard-truncated just after the `max_lines`-th newline;
in particular trimming `OneStyle("AB")` with `max_chars = 1` yields
`OneStyle("A")`. -/
theorem trim_one_style_ascii (s : List Char) (maxChars maxLines : Nat)
    (hascii : ∀ c ∈ s, utf8Len c = 1) (hpos : 0 < maxChars) :
    _trim_text (α := Unit) (.OneStyle s) maxChars maxLines =
      some (.OneStyle (if maxLines = 0 then s.take maxChars
        else takeThroughNewlines (s.take maxChars) maxLines)) := by
  have hne : ¬ (maxChars = 0 ∧ maxLines = 0) := by omega
  have htr := strTruncate_ascii s hascii maxChars
  have hch : maxChars ≠ 0 := by omega
  by_cases hml : maxLines = 0
  · simp [_trim_text, hne, hch, htr, hml]
  · have hml0 : 0 < maxLines := Nat.pos_of_ne_zero hml
    have hascii_t : ∀ c ∈ s.take maxChars, utf8Len c = 1 :=
      fun c hc => hascii c (List.take_subset maxChars s hc)
    have hspec := newlineScanPos_spec (s.take maxChars) 0 0 maxLines hml0
    cases hscan : newlineScanPos (s.take maxChars) 0 0 maxLines with
    | none =>
      have := hspec.1 hscan
      simp only [Nat.sub_zero] at this
      simp [_trim_text, hne, hch, htr, hml, hscan, this]
    | some p =>
      obtain ⟨_, _, h3⟩ := hspec.2 p hscan
      simp only [Nat.sub_zero] at h3
      have htr2 := strTruncate_ascii (s.take maxChars) hascii_t p
      simp [_trim_text, hne, hch, htr, hml, hscan, htr2, h3]

/-- C1 witness: the `OneStyle("AB")`, `max_chars = 1` scenario, through the
amended theorem. -/
theorem trim_one_style_ascii_witness :
    (∀ c ∈ (['A', 'B'] : List Char), utf8Len c = 1) ∧ 0 < 1 ∧
      _trim_text (α := Unit) (.OneStyle ['A', 'B']) 1 0 = some (.OneStyle ['A']) := by
  refine ⟨by decide, Nat.one_pos, ?_⟩
  have h := trim_one_style_ascii ['A', 'B'] 1 0 (by decide) Nat.one_pos
  simpa using h

/-- C2 counterexample: a `MultiStyle` and a `OneStyle` holding the same logical
content "AB" do NOT truncate to the same logical content at `max_chars = 1`:
the `MultiStyle` walk charges one character for the (non-existent) separator
before the first line and drops everything, while the `OneStyle` path keeps
"A". -/
theorem trim_multi_one_equivalence_fails :
    joinLines (α := Unit) [[(['A', 'B'], ())]] = ['A', 'B'] ∧
      Option.map (textContent (α := Unit))
          (_trim_text (.MultiStyle [[(['A', 'B'], ())]]) 1 0) ≠
        Option.map (textContent (α := Unit)) (_trim_text (.OneStyle ['A', 'B']) 1 0) := by
  decide

/-- C2 (amended): the `MultiStyle` walk accumulates a character counter that
increments once per line BEFORE processing it (so even the first line is
preceded by a charged separator, unlike the `OneStyle` path), stops and drops
the remainder once either limit is reached, and truncates a partially included
line run-by-run; consequently the budget left for the first line's characters
is `max_chars - 1`, and a `MultiStyle` may truncate to different logical
content than a `OneStyle` of the same content: a single-line single-run
`MultiStyle` of single-byte characters trimmed to `max_chars = n` is empty when
`n = 1` and keeps the first `n - 1` characters otherwise. -/
theorem trim_multi_single_line_budget (s : List Char) (n : Nat)
    (hascii : ∀ c ∈ s, utf8Len c = 1) (hpos : 0 < n) :
    _trim_text (α := Unit) (.MultiStyle [[(s, ())]]) n 0 =
      some (if n = 1 then .MultiStyle []
        else .MultiStyle [[(s.take (n - 1), ())]]) := by
  have hne : ¬ (n = 0 ∧ (0 : Nat) = 0) := by omega
  by_cases h1 : n = 1
  · subst h1
    simp [_trim_text, trimLines]
  · have h2 : 2 ≤ n := by omega
    have hguard : ¬ ((0 > 0 ∧ 0 + 1 ≥ 0) ∨ (n > 0 ∧ 0 + 1 ≥ n)) := by omega
    have hrguard : ¬ (n > 0 ∧ 1 ≥ n) := by omega
    have htr := strTruncate_ascii s hascii (n - 1)
    have hn0 : ¬ n = 0 := by omega
    have hle : ¬ n ≤ 1 := by omega
    simp [_trim_text, hne, trimLines, hguard, trimRuns, hrguard, htr, h1, hn0, hpos, hle]

/-- C2 witness: a single ASCII line ["AB"] at `max_chars = 2` keeps exactly one
character, through the amended theorem. -/
theorem trim_multi_single_line_budget_witness :
    (∀ c ∈ (['A', 'B'] : List Char), utf8Len c = 1) ∧ 0 < 2 ∧
      _trim_text (α := Unit) (.MultiStyle [[(['A', 'B'], ())]]) 2 0 =
        some (.MultiStyle [[(['A'], ())]]) := by
  refine ⟨by decide, by decide, ?_⟩
  have h := trim_multi_single_line_budget ['A', 'B'] 2 (by decide) (by decide)
  simpa using h

/-! Layout: modes, positions, buffer extents (`render.rs`). -/

/-- The `CosmicMode` enum from `lib.rs`. -/
inductive CosmicMode where
  | InfiniteLine
  | AutoHeight
  | Wrap
deriving DecidableEq

/-- The `CosmicTextPosition` enum from `lib.rs`. -/
inductive CosmicTextPosition where
  | Center
  | TopLeft (padding : ℤ)
  | Left (padding : ℤ)
deriving DecidableEq

/-- Horizontal padding derived from the text position, as computed at the top
of `cosmic_buffer_size` in `render.rs`. -/
def paddingX : CosmicTextPosition → ℚ
  | .Center => 0
  | .TopLeft p => (p : ℚ)
  | .Left p => (p : ℚ)

/-- Extent of one buffer dimension as handed to the shaping engine's
`set_size`: either an ordinary finite value or the engine's symbolic
"unbounded" concept (IEEE `+∞`, which the spec says represents no-wrap
growth). -/
inductive Extent where
  | finite : ℚ → Extent
  | unbounded : Extent
deriving DecidableEq

/-- Exact value of the finite float `f32::MAX`. -/
def f32Max : ℚ := 2 ^ 128 - 2 ^ 104

/-- Exact value of `(i32::MAX / 2) as f32`: `1073741823` rounds to the nearest
representable `f32`, which is `2^30`. -/
def i32HalfMaxF32 : ℚ := 2 ^ 30

/-- The extents passed to `buffer.set_size` by `cosmic_buffer_size` in
`render.rs`, per mode. -/
def cosmic_buffer_size (mode : CosmicMode) (sizeX sizeY : ℚ)
    (pos : CosmicTextPosition) : Extent × Extent :=
  match mode with
  | .InfiniteLine => (.finite f32Max, .finite sizeY)
  | .AutoHeight => (.finite (sizeX - paddingX pos), .finite i32HalfMaxF32)
  | .Wrap => (.finite (sizeX - paddingX pos), .finite sizeY)

/-- Modelled from the spec: the extent mapping the spec describes, with the
unbounded directions (`InfiniteLine` width, `AutoHeight` height) mapped to the
shaping engine's symbolic "unbounded" extent concept rather than any finite
number. -/
def buffer_size_spec (mode : CosmicMode) (sizeX sizeY : ℚ)
    (pos : CosmicTextPosition) : Extent × Extent :=
  match mode with
  | .InfiniteLine => (.unbounded, .finite sizeY)
  | .AutoHeight => (.finite (sizeX - paddingX pos), .unbounded)
  | .Wrap => (.finite (sizeX - paddingX pos), .finite sizeY)

/-- Substitution of the code's finite sentinels for the spec's symbolic
unbounded extents: an unbounded width becomes the finite `f32::MAX`, an
unbounded height becomes the finite `(i32::MAX / 2) as f32`. -/
def substSentinels : Extent × Extent → Extent × Extent
  | (w, h) =>
    ((match w with | .unbounded => .finite f32Max | x => x),
     (match h with | .unbounded => .finite i32HalfMaxF32 | x => x))

/-- C3 counterexample: in `AutoHeight` mode the buffer height handed to
`set_size` is the arbitrary large FINITE number `(i32::MAX / 2) as f32 = 2^30`,
not the shaping engine's unbounded extent concept. -/
theorem buffer_size_autoheight_is_finite :
    cosmic_buffer_size .AutoHeight 100 50 .Center ≠
      buffer_size_spec .AutoHeight 100 50 .Center := by
  simp [cosmic_buffer_size, buffer_size_spec]

/-- C3 (amended): the per-mode width/height assignments are as claimed
(`InfiniteLine`: height = widget height; `AutoHeight` and `Wrap`: width =
widget width minus horizontal padding; `Wrap`: height = widget height), but
the unbounded directions are represented by large finite sentinels — width
`f32::MAX` in `InfiniteLine` and height `(i32::MAX / 2) as f32 = 2^30` in
`AutoHeight` — never by a symbolic unbounded extent: the code's mapping equals
the spec's mapping with its unbounded extents replaced by those sentinels. -/
theorem buffer_size_refines_spec_with_sentinels (mode : CosmicMode)
    (sizeX sizeY : ℚ) (pos : CosmicTextPosition) :
    cosmic_buffer_size mode sizeX sizeY pos =
      substSentinels (buffer_size_spec mode sizeX sizeY pos) := by
  cases mode <;> rfl

/-! Claim C5: the `InfiniteLine` viewport window of `set_cursor` in
`render.rs`. -/

/-- Cursor affinity from the shaping engine (`cosmic_text::Affinity`). -/
inductive Affinity where
  | Before
  | After
deriving DecidableEq

/-- The glyph-advance summation loop of `set_cursor`: sums the widths of the
first line's glyphs up to the cursor index, inclusively for affinity `Before`
and exclusively for `After`. -/
def cursor_x_loop : List ℚ → ℕ → ℕ → Affinity → ℚ
  | [], _, _, _ => 0
  | w :: ws, idx, index, aff =>
    match aff with
    | .Before => (if idx ≤ index then w else 0) + cursor_x_loop ws (idx + 1) index aff
    | .After => if idx < index then w + cursor_x_loop ws (idx + 1) index aff else 0

/-- The `XOffset` update of `set_cursor` in `render.rs`: establish the window
at `(0, widget width - 2 * padding)` when unset in `InfiniteLine` mode, then
slide it right when the cursor pixel-x overflows `x_max` and left when it
underflows `x_min` (both comparisons against the originally destructured
bounds). -/
def set_cursor_x_offset (xOffset : Option (ℚ × ℚ)) (mode : CosmicMode)
    (cursorX sizeX padX : ℚ) : Option (ℚ × ℚ) :=
  let xo := if mode = .InfiniteLine ∧ xOffset = none
            then some (0, sizeX - 2 * padX) else xOffset
  match xo with
  | none => none
  | some (xmin, xmax) =>
    let w1 := if cursorX > xmax then (xmin + (cursorX - xmax), cursorX) else (xmin, xmax)
    some (if cursorX < xmin then (cursorX, xmax - (xmin - cursorX)) else w1)

/-- C5: for an established window `(xmin, xmax)`, a cursor past `x_max` slides
the window right by the overflow so its max becomes the cursor x, and a cursor
before `x_min` slides it left symmetrically so its min becomes the cursor x. -/
theorem set_cursor_window_slides (xOffset : Option (ℚ × ℚ)) (mode : CosmicMode)
    (cursorX sizeX padX xmin xmax : ℚ)
    (hest : xOffset = some (xmin, xmax)) (hord : xmin ≤ xmax) :
    (cursorX > xmax →
      set_cursor_x_offset xOffset mode cursorX sizeX padX =
        some (xmin + (cursorX - xmax), cursorX)) ∧
    (cursorX < xmin →
      set_cursor_x_offset xOffset mode cursorX sizeX padX =
        some (cursorX, xmax - (xmin - cursorX))) := by
  subst hest
  constructor
  · intro hgt
    have h1 : ¬ cursorX < xmin := by linarith
    simp [set_cursor_x_offset, hgt, h1]
  · intro hlt
    simp [set_cursor_x_offset, hlt]

/-- C5 witness: the window `(0, 100)` with the cursor at `x = 150` becomes
`(50, 150)`. -/
theorem set_cursor_window_slides_witness :
    (0 : ℚ) ≤ 100 ∧ (150 : ℚ) > 100 ∧
      set_cursor_x_offset (some (0, 100)) .InfiniteLine 150 128 0 = some (50, 150) := by
  refine ⟨by norm_num, by norm_num, ?_⟩
  have h := (set_cursor_window_slides (some (0, 100)) .InfiniteLine 150 128 0 0 100
    rfl (by norm_num)).1 (by norm_num)
  rw [h]
  norm_num

/-! Claim C6: `auto_height` in `render.rs`. -/

/-- The sprite-height update of `auto_height` in `render.rs` for a widget in
`AutoHeight` mode: the measured text height plus a fixed 30px margin, divided
by the window scale factor, is compared against the widget height over the
scale factor; the sprite's logical height grows to its ceiling when taller and
is left untouched otherwise. -/
def auto_height_step (spriteY widgetSizeY textSizeH scale : ℚ) : ℚ :=
  let textHeight := (textSizeH + 30) / scale
  if textHeight > widgetSizeY / scale then ((⌈textHeight⌉ : ℤ) : ℚ) else spriteY

/-- C6 counterexample: a widget at 50px whose content measures 80px grows to
`ceil((80 + 30) / 1) = 110`, not to `ceil(80) = 80` as the claim's scenario
states: the fixed 30px vertical margin enters the grown height. -/
theorem auto_height_scenario_fails :
    auto_height_step 50 50 80 1 ≠ ((80 : ℚ)) ∧ auto_height_step 50 50 80 1 = 110 := by
  constructor <;> norm_num [auto_height_step]

/-- C6 (amended): in `AutoHeight` mode the widget height is monotonically
non-decreasing across layout passes: when the measured content height plus the
fixed 30px margin (over the scale factor) exceeds the current widget height,
the sprite height grows to the ceiling of that needed height, and a smaller
subsequent measurement never shrinks it; e.g. a widget at 50px with content
measuring 80px grows to `ceil((80 + 30) / 1) = 110`, and a later 40px
measurement does not shrink it below 110. -/
theorem auto_height_monotone (spriteY widgetSizeY textSizeH scale : ℚ)
    (hsync : spriteY ≤ widgetSizeY / scale) :
    spriteY ≤ auto_height_step spriteY widgetSizeY textSizeH scale ∧
      ((textSizeH + 30) / scale > widgetSizeY / scale →
        auto_height_step spriteY widgetSizeY textSizeH scale =
          ((⌈(textSizeH + 30) / scale⌉ : ℤ) : ℚ)) := by
  constructor
  · unfold auto_height_step
    by_cases h : (textSizeH + 30) / scale > widgetSizeY / scale
    · simp only [h, if_true]
      have hc := Int.le_ceil ((textSizeH + 30) / scale)
      linarith
    · simp [h]
  · intro h
    simp [auto_height_step, h]

/-- C6 witness: the 50px/80px/40px scenario, through the amended theorem: the
first pass grows the widget to 110 and the second pass leaves 110 alone. -/
theorem auto_height_monotone_witness :
    (0 : ℚ) < 1 ∧ (50 : ℚ) ≤ 50 / 1 ∧ (110 : ℚ) ≤ 110 / 1 ∧
      auto_height_step 50 50 80 1 = 110 ∧ auto_height_step 110 110 40 1 = 110 := by
  refine ⟨by norm_num, by norm_num, by norm_num, ?_, ?_⟩
  · have h := (auto_height_monotone 50 50 80 1 (by norm_num)).2 (by norm_num)
    rw [h]
    norm_num
  · have h := (auto_height_monotone 110 110 40 1 (by norm_num)).1
    have h2 : auto_height_step 110 110 40 1 = 110 := by
      norm_num [auto_height_step]
    exact h2

/-! Claim C7: `on_scale_factor_change` in `render.rs`. -/

/-- Font metrics as kept by the shaping engine (`cosmic_text::Metrics`). -/
structure Metrics where
  fontSize : ℚ
  lineHeight : ℚ
deriving DecidableEq

/-- The shaping engine's `Metrics::scale`: multiplies both fields by the
scale. -/
def Metrics.scale (m : Metrics) (s : ℚ) : Metrics :=
  ⟨m.fontSize * s, m.lineHeight * s⟩

/-- The widget's `CosmicMetrics` component: logical font size and line height
plus the device scale factor they were last resolved against. -/
structure CosmicMetrics where
  fontSize : ℚ
  lineHeight : ℚ
  scaleFactor : ℚ

/-- The per-widget observable state touched by `on_scale_factor_change`: the
buffer's current metrics and redraw flag. -/
structure BufferState where
  metrics : Metrics
  redraw : Bool
deriving DecidableEq

/-- The per-widget effect of `on_scale_factor_change` in `render.rs` on a
scale-factor event: the buffer metrics become the component's base metrics
scaled by the new factor, the redraw flag is set, and `XOffset` is reset to
`None`. -/
def on_scale_factor_change (cm : CosmicMetrics) (_buf : BufferState)
    (_xOffset : Option (ℚ × ℚ)) (newScale : ℚ) : BufferState × Option (ℚ × ℚ) :=
  (⟨(Metrics.mk cm.fontSize cm.lineHeight).scale newScale, true⟩, none)

/-- C7: on a device scale-factor change, a buffer whose metrics were the
component's base metrics scaled by the old factor gets its font size and line
height multiplied by the ratio of the new scale to the old scale, the redraw
flag is set, and `XOffset` is reset to `None`. -/
theorem on_scale_factor_change_rescales (cm : CosmicMetrics) (buf : BufferState)
    (xOffset : Option (ℚ × ℚ)) (oldScale newScale : ℚ)
    (hbuf : buf.metrics = (Metrics.mk cm.fontSize cm.lineHeight).scale oldScale)
    (hold : oldScale ≠ 0) :
    (on_scale_factor_change cm buf xOffset newScale).1.metrics.fontSize =
        buf.metrics.fontSize * (newScale / oldScale) ∧
      (on_scale_factor_change cm buf xOffset newScale).1.metrics.lineHeight =
        buf.metrics.lineHeight * (newScale / oldScale) ∧
      (on_scale_factor_change cm buf xOffset newScale).1.redraw = true ∧
      (on_scale_factor_change cm buf xOffset newScale).2 = none := by
  refine ⟨?_, ?_, rfl, rfl⟩
  · rw [hbuf]
    simp only [on_scale_factor_change, Metrics.scale]
    field_simp
    ring
  · rw [hbuf]
    simp only [on_scale_factor_change, Metrics.scale]
    field_simp
    ring

/-- C7 witness: a buffer at base metrics (14, 20) scaled by 1, rescaled to
scale 2, doubles both metrics, sets redraw and clears the offset. -/
theorem on_scale_factor_change_rescales_witness :
    (⟨⟨14, 20⟩, false⟩ : BufferState).metrics =
        (Metrics.mk 14 20).scale 1 ∧ (1 : ℚ) ≠ 0 ∧
      on_scale_factor_change ⟨14, 20, 1⟩ ⟨⟨14, 20⟩, false⟩ (some (0, 100)) 2 =
        (⟨⟨28, 40⟩, true⟩, none) := by
  refine ⟨by norm_num [Metrics.scale], one_ne_zero, ?_⟩
  have h := on_scale_factor_change_rescales ⟨14, 20, 1⟩ ⟨⟨14, 20⟩, false⟩
    (some (0, 100)) 1 2 (by norm_num [Metrics.scale]) one_ne_zero
  obtain ⟨h1, h2, h3, h4⟩ := h
  simp only [on_scale_factor_change, Metrics.scale]
  norm_num

/-! Claims C4 and C8: `draw_pixel` in `render.rs`.  Bevy `Color` arithmetic is
modelled field-for-field: `Color * Vec3` and `Color * f32` multiply only the
RGB channels and keep the alpha channel, while `Color + Color` adds all four
channels. -/

/-- An RGBA color with `u8` components (`cosmic_text::Color`). -/
structure ColorU8 where
  r : ℕ
  g : ℕ
  b : ℕ
  a : ℕ
deriving DecidableEq

/-- An RGBA color with float components (`bevy::prelude::Color`), floats
modelled exactly over `ℚ`. -/
structure ColorF where
  red : ℚ
  green : ℚ
  blue : ℚ
  alpha : ℚ

/-- Bevy `Color::rgba_u8`: each byte divided by 255. -/
def rgba_u8 (r g b a : ℕ) : ColorF :=
  ⟨(r : ℚ) / 255, (g : ℚ) / 255, (b : ℚ) / 255, (a : ℚ) / 255⟩

/-- Bevy `Color * Vec3::splat(s)`: multiplies the RGB channels, keeps alpha. -/
def colorMulVec3 (c : ColorF) (s : ℚ) : ColorF :=
  ⟨c.red * s, c.green * s, c.blue * s, c.alpha⟩

/-- Bevy `Color * f32`: multiplies the RGB channels, keeps alpha. -/
def colorMulF32 (c : ColorF) (s : ℚ) : ColorF :=
  ⟨c.red * s, c.green * s, c.blue * s, c.alpha⟩

/-- Bevy `Color + Color`: adds all four channels. -/
def colorAdd (c d : ColorF) : ColorF :=
  ⟨c.red + d.red, c.green + d.green, c.blue + d.blue, c.alpha + d.alpha⟩

/-- Rust `as u8` cast from a float (modelled exactly): truncate toward zero and
saturate into `[0, 255]`. -/
def f32_as_u8 (q : ℚ) : ℕ := min 255 (Int.toNat ⌊q⌋)

/-- The function `draw_pixel` from `render.rs`: skip zero-alpha pixels, skip
out-of-bounds coordinates, otherwise alpha-blend the foreground over the four
background bytes at the pixel's offset.  Rust slice indexing out of range
panics, modelled as `none`. -/
def draw_pixel (buffer : List ℕ) (width height : ℤ) (x y : ℤ) (color : ColorU8) :
    Option (List ℕ) :=
  if color.a = 0 then some buffer
  else if y < 0 ∨ y ≥ height then some buffer
  else if x < 0 ∨ x ≥ width then some buffer
  else
    let offset := (y.toNat * width.toNat + x.toNat) * 4
    if h : offset + 3 < buffer.length then
      let bg := rgba_u8 (buffer.get ⟨offset, by omega⟩) (buffer.get ⟨offset + 1, by omega⟩)
        (buffer.get ⟨offset + 2, by omega⟩) (buffer.get ⟨offset + 3, h⟩)
      let fg := rgba_u8 color.r color.g color.b color.a
      let premul := colorMulVec3 fg ((color.a : ℚ) / 255)
      let out := colorAdd premul (colorMulF32 bg (1 - fg.alpha))
      some ((((buffer.set (offset + 2) (f32_as_u8 (out.blue * 255))).set (offset + 1)
        (f32_as_u8 (out.green * 255))).set offset (f32_as_u8 (out.red * 255))).set
        (offset + 3) (f32_as_u8 (out.alpha * 255)))
    else none

theorem pixel_offset_bound {W H a b : ℕ} (ha : a < W) (hb : b < H) :
    (b * W + a) * 4 + 3 < W * H * 4 := by
  have h3 : b * W + a + 1 ≤ (b + 1) * W := by
    rw [Nat.add_mul, Nat.one_mul]; omega
  have h4 : (b + 1) * W ≤ H * W := Nat.mul_le_mul_right W hb
  calc (b * W + a) * 4 + 3 < (b * W + a + 1) * 4 := by omega
    _ ≤ ((b + 1) * W) * 4 := Nat.mul_le_mul_right 4 h3
    _ ≤ (H * W) * 4 := Nat.mul_le_mul_right 4 h4
    _ = W * H * 4 := by ring

theorem draw_pixel_isSome (buffer : List ℕ) (width height x y : ℤ) (color : ColorU8)
    (hlen : width.toNat * height.toNat * 4 ≤ buffer.length) :
    (draw_pixel buffer width height x y color).isSome = true := by
  unfold draw_pixel
  split
  · rfl
  · split
    · rfl
    · split
      · rfl
      · have hx : x.toNat < width.toNat := by omega
        have hy : y.toNat < height.toNat := by omega
        have hoff : (y.toNat * width.toNat + x.toNat) * 4 + 3 < buffer.length :=
          lt_of_lt_of_le (pixel_offset_bound hx hy) hlen
        rw [dif_pos hoff]
        rfl

theorem draw_pixel_some_length (buffer : List ℕ) (width height x y : ℤ)
    (color : ColorU8) (out : List ℕ)
    (h : draw_pixel buffer width height x y color = some out) :
    out.length = buffer.length := by
  simp only [draw_pixel] at h
  split at h
  · cases h; rfl
  · split at h
    · cases h; rfl
    · split at h
      · cases h; rfl
      · split at h
        · cases h
          simp
        · cases h

theorem opaque_rgb_byte (v w : ℕ) (hv : v ≤ 255) :
    f32_as_u8 (((v : ℚ) / 255 * (((255 : ℕ) : ℚ) / 255) +
      (w : ℚ) / 255 * (1 - ((255 : ℕ) : ℚ) / 255)) * 255) = v := by
  have h1 : ((v : ℚ) / 255 * (((255 : ℕ) : ℚ) / 255) +
      (w : ℚ) / 255 * (1 - ((255 : ℕ) : ℚ) / 255)) * 255 = ((v : ℕ) : ℚ) := by
    push_cast
    ring
  rw [h1]
  unfold f32_as_u8
  rw [Int.floor_natCast]
  simp [min_eq_right hv]

theorem opaque_alpha_byte (w : ℕ) :
    f32_as_u8 ((((255 : ℕ) : ℚ) / 255 + (w : ℚ) / 255) * 255) = 255 := by
  have h1 : (((255 : ℕ) : ℚ) / 255 + (w : ℚ) / 255) * 255 = ((255 + w : ℕ) : ℚ) := by
    push_cast
    ring
  rw [h1]
  unfold f32_as_u8
  rw [Int.floor_natCast]
  omega

/-- C4: compositing a fully-opaque glyph pixel (alpha byte 255) writes exactly
the foreground color bytes into the pixel buffer, and compositing a
fully-transparent glyph pixel (alpha byte 0) leaves the background bytes
byte-for-byte unchanged, for every background buffer. -/
theorem draw_pixel_opaque_transparent (buffer : List ℕ) (width height x y : ℤ)
    (r g b : ℕ) (hr : r ≤ 255) (hg : g ≤ 255) (hb : b ≤ 255)
    (hx0 : 0 ≤ x) (hxw : x < width) (hy0 : 0 ≤ y) (hyh : y < height)
    (hlen : width.toNat * height.toNat * 4 ≤ buffer.length) :
    draw_pixel buffer width height x y ⟨r, g, b, 255⟩ =
      some ((((buffer.set ((y.toNat * width.toNat + x.toNat) * 4 + 2) b).set
        ((y.toNat * width.toNat + x.toNat) * 4 + 1) g).set
        ((y.toNat * width.toNat + x.toNat) * 4) r).set
        ((y.toNat * width.toNat + x.toNat) * 4 + 3) 255) ∧
    draw_pixel buffer width height x y ⟨r, g, b, 0⟩ = some buffer := by
  constructor
  · have hys : ¬ (y < 0 ∨ y ≥ height) := by omega
    have hxs : ¬ (x < 0 ∨ x ≥ width) := by omega
    have hx : x.toNat < width.toNat := by omega
    have hy : y.toNat < height.toNat := by omega
    have hoff : (y.toNat * width.toNat + x.toNat) * 4 + 3 < buffer.length :=
      lt_of_lt_of_le (pixel_offset_bound hx hy) hlen
    unfold draw_pixel
    rw [if_neg (by decide : ¬ ((255 : ℕ) = 0)), if_neg hys, if_neg hxs, dif_pos hoff]
    simp only [rgba_u8, colorMulVec3, colorMulF32, colorAdd]
    rw [opaque_rgb_byte r _ hr, opaque_rgb_byte g _ hg, opaque_rgb_byte b _ hb,
      opaque_alpha_byte]
  · unfold draw_pixel
    rw [if_pos rfl]

/-- C4 witness: the opaque and transparent cases at a concrete pixel of a
concrete 1x1 buffer. -/
theorem draw_pixel_opaque_transparent_witness :
    draw_pixel [9, 9, 9, 9] 1 1 0 0 ⟨10, 20, 30, 255⟩ = some [10, 20, 30, 255] ∧
      draw_pixel [9, 9, 9, 9] 1 1 0 0 ⟨10, 20, 30, 0⟩ = some [9, 9, 9, 9] := by
  have h := draw_pixel_opaque_transparent [9, 9, 9, 9] 1 1 0 0 10 20 30
    (by norm_num) (by norm_num) (by norm_num) (by norm_num) (by norm_num)
    (by norm_num) (by norm_num) (by norm_num)
  obtain ⟨h1, h2⟩ := h
  refine ⟨?_, h2⟩
  rw [h1]
  rfl

/-- C8: for every coordinate pair, every color, and every buffer of at least
`width * height * 4` bytes, `draw_pixel` never panics (it always returns a
buffer), and for target coordinates outside `[0, width) × [0, height)` — as
for zero-alpha pixels — it is a silent no-op leaving the buffer unchanged. -/
theorem draw_pixel_safe (buffer : List ℕ) (width height x y : ℤ) (color : ColorU8)
    (hlen : width.toNat * height.toNat * 4 ≤ buffer.length) :
    (draw_pixel buffer width height x y color).isSome = true ∧
      ((x < 0 ∨ x ≥ width ∨ y < 0 ∨ y ≥ height) →
        draw_pixel buffer width height x y color = some buffer) ∧
      (color.a = 0 → draw_pixel buffer width height x y color = some buffer) := by
  refine ⟨draw_pixel_isSome buffer width height x y color hlen, ?_, ?_⟩
  · intro hout
    unfold draw_pixel
    split
    · rfl
    · split
      · rfl
      · split
        · rfl
        · omega
  · intro ha
    unfold draw_pixel
    rw [if_pos ha]

/-- C8 witness: an out-of-bounds coordinate on a concrete buffer is a no-op and
panic-free. -/
theorem draw_pixel_safe_witness :
    (1 : ℤ).toNat * (1 : ℤ).toNat * 4 ≤ ([9, 9, 9, 9] : List ℕ).length ∧
      draw_pixel [9, 9, 9, 9] 1 1 5 0 ⟨10, 20, 30, 255⟩ = some [9, 9, 9, 9] := by
  refine ⟨by norm_num, ?_⟩
  exact (draw_pixel_safe [9, 9, 9, 9] 1 1 5 0 ⟨10, 20, 30, 255⟩ (by norm_num)).2.1
    (by norm_num)

/-! Claim C9: the per-widget render pass of `render_texture` in `render.rs`
(solid-fill background path; the glyph runs come from the external shaping
engine, so the pixel operations its `draw` callback emits are a parameter). -/

/-- Background fill of `render_texture`: `vec![0; w * h * 4]` overwritten
chunk-by-chunk with the solid fill color's bytes. -/
def backgroundFill (w h : ℕ) (bg : ColorF) : List ℕ :=
  List.flatten (List.replicate (w * h)
    [f32_as_u8 (bg.red * 255), f32_as_u8 (bg.green * 255),
     f32_as_u8 (bg.blue * 255), f32_as_u8 (bg.alpha * 255)])

/-- The sequence of `draw_pixel` calls made by the editor's `draw` callback,
folded over the pixel buffer. -/
def applyDraws (width height : ℤ) : List (ℤ × ℤ × ColorU8) → List ℕ → Option (List ℕ)
  | [], pixels => some pixels
  | (x, y, c) :: rest, pixels =>
    match draw_pixel pixels width height x y c with
    | none => none
    | some p => applyDraws width height rest p

/-- A bevy `Image` as the render pass observes it: raw data bytes plus the
texture dimensions. -/
structure ImageData where
  data : List ℕ
  width : ℕ
  height : ℕ
deriving DecidableEq

/-- Rust `Vec::resize(n, 0)`: truncate to `n` elements or zero-pad up to it. -/
def listResize (l : List ℕ) (n : ℕ) : List ℕ :=
  l.take n ++ List.replicate (n - l.length) 0

/-- Bevy `Image::resize`: sets the texture dimensions and resizes the data
bytes, zero-filling (4 bytes per RGBA8 pixel). -/
def image_resize (img : ImageData) (w h : ℕ) : ImageData :=
  ⟨listResize img.data (w * h * 4), w, h⟩

/-- The per-widget pass of `render_texture` in `render.rs`: build the
background pixels, skip the widget when the redraw flag is clear, otherwise
run the glyph draw operations, clear the flag, and replace the target image's
data (`clear` + `extend_from_slice`) before resizing it to the widget
dimensions. -/
def render_texture_widget (redraw : Bool) (w h : ℕ) (bg : ColorF)
    (ops : List (ℤ × ℤ × ColorU8)) (img : ImageData) : Option (Bool × ImageData) :=
  let pixels := backgroundFill w h bg
  if redraw = false then some (redraw, img)
  else
    match applyDraws (w : ℤ) (h : ℤ) ops pixels with
    | none => none
    | some px => some (false, image_resize { img with data := px } w h)

theorem flatten_replicate_length {α : Type} (l : List α) :
    ∀ n, (List.flatten (List.replicate n l)).length = n * l.length
  | 0 => by simp
  | n + 1 => by
    simp [List.replicate_succ, flatten_replicate_length l n, Nat.succ_mul, Nat.add_comm]

theorem backgroundFill_length (w h : ℕ) (bg : ColorF) :
    (backgroundFill w h bg).length = w * h * 4 := by
  unfold backgroundFill
  rw [flatten_replicate_length]
  rfl

theorem applyDraws_total (width height : ℤ) :
    ∀ (ops : List (ℤ × ℤ × ColorU8)) (pixels : List ℕ),
      width.toNat * height.toNat * 4 ≤ pixels.length →
      ∃ px, applyDraws width height ops pixels = some px ∧ px.length = pixels.length
  | [], pixels, _ => ⟨pixels, rfl, rfl⟩
  | (x, y, c) :: rest, pixels, hlen => by
    have hsome := draw_pixel_isSome pixels width height x y c hlen
    cases hp : draw_pixel pixels width height x y c with
    | none => rw [hp] at hsome; cases hsome
    | some p =>
      have hplen : p.length = pixels.length :=
        draw_pixel_some_length pixels width height x y c p hp
      have hlen2 : width.toNat * height.toNat * 4 ≤ p.length := by omega
      obtain ⟨px, h1, h2⟩ := applyDraws_total width height rest p hlen2
      exact ⟨px, by simp [applyDraws, hp, h1], by omega⟩

theorem listResize_eq_self (l : List ℕ) (n : ℕ) (h : l.length = n) :
    listResize l n = l := by
  unfold listResize
  rw [← h, Nat.sub_self, List.replicate_zero, List.append_nil, List.take_length]

/-- C9: a widget whose redraw flag is clear is skipped by the render pass —
the flag and the target image are left untouched; a widget whose flag is set
has its glyph operations drawn over the background (always succeeding), the
flag cleared, and the target image's pixel data replaced by the drawn pixels
with the image taking the widget dimensions — the data is exactly the drawn
`w * h * 4` bytes, so the resize step pads or truncates nothing and the
surface is resized only when the widget dimensions changed. -/
theorem render_texture_widget_gated (redraw : Bool) (w h : ℕ) (bg : ColorF)
    (ops : List (ℤ × ℤ × ColorU8)) (img : ImageData) :
    (redraw = false → render_texture_widget redraw w h bg ops img = some (false, img)) ∧
    (redraw = true → ∃ px,
      applyDraws (w : ℤ) (h : ℤ) ops (backgroundFill w h bg) = some px ∧
      px.length = w * h * 4 ∧
      render_texture_widget redraw w h bg ops img = some (false, ⟨px, w, h⟩)) := by
  constructor
  · intro hfalse
    subst hfalse
    rfl
  · intro htrue
    subst htrue
    have hlen : (w : ℤ).toNat * (h : ℤ).toNat * 4 ≤ (backgroundFill w h bg).length := by
      rw [backgroundFill_length]
      simp only [Int.toNat_natCast]
      omega
    obtain ⟨px, h1, h2⟩ := applyDraws_total (w : ℤ) (h : ℤ) ops (backgroundFill w h bg) hlen
    rw [backgroundFill_length] at h2
    refine ⟨px, h1, h2, ?_⟩
    simp only [render_texture_widget, Bool.true_eq_false, if_false, h1]
    rw [show image_resize ⟨px, img.width, img.height⟩ w h = ⟨px, w, h⟩ from ?_]
    · unfold image_resize
      rw [listResize_eq_self px (w * h * 4) h2]

/-- C9 witness: a clean widget is a no-op; a dirty 1x1 widget with no glyph
operations gets the solid background written, its flag cleared, and its image
resized to the widget dimensions. -/
theorem render_texture_widget_gated_witness :
    render_texture_widget false 1 1 ⟨0, 0, 0, 1⟩ [] ⟨[1, 2, 3, 4, 5], 2, 3⟩ =
        some (false, ⟨[1, 2, 3, 4, 5], 2, 3⟩) ∧
      render_texture_widget true 1 1 ⟨0, 0, 0, 1⟩ [] ⟨[1, 2, 3, 4, 5], 2, 3⟩ =
        some (false, ⟨[0, 0, 0, 255], 1, 1⟩) := by
  constructor
  · exact (render_texture_widget_gated false 1 1 ⟨0, 0, 0, 1⟩ []
      ⟨[1, 2, 3, 4, 5], 2, 3⟩).1 rfl
  · obtain ⟨px, h1, h2, h3⟩ := (render_texture_widget_gated true 1 1 ⟨0, 0, 0, 1⟩ []
      ⟨[1, 2, 3, 4, 5], 2, 3⟩).2 rfl
    have hbg : backgroundFill 1 1 ⟨0, 0, 0, 1⟩ = [0, 0, 0, 255] := by
      unfold backgroundFill
      norm_num [f32_as_u8]
    have hpx : px = [0, 0, 0, 255] := by
      rw [hbg] at h1
      simpa [applyDraws] using h1.symm
    rw [h3, hpx]

/-! Claim C10: `get_node_cursor_pos` from `lib.rs`. -/

/-- The function `get_node_cursor_pos` from `lib.rs`: the window's cursor
position (if any), transformed through the camera for non-UI nodes, is tested
strictly inside the node's rectangle and returned relative to the node.  The
function only reads its inputs; its state-free embedding is a pure function.
The camera's `viewport_to_world_2d` is an external collaborator, passed as a
function. -/
def get_node_cursor_pos (cursorPos : Option (ℚ × ℚ)) (tx ty sizeX sizeY : ℚ)
    (isUiNode : Bool) (viewportToWorld : ℚ × ℚ → Option (ℚ × ℚ)) :
    Option (ℚ × ℚ) :=
  let xMin := tx - sizeX / 2
  let yMin := ty - sizeY / 2
  let xMax := tx + sizeX / 2
  let yMax := ty + sizeY / 2
  cursorPos.bind (fun pos =>
    if isUiNode then
      if xMin < pos.1 ∧ pos.1 < xMax ∧ yMin < pos.2 ∧ pos.2 < yMax then
        some (pos.1 - xMin, pos.2 - yMin)
      else none
    else
      (viewportToWorld pos).bind (fun wpos =>
        if xMin < wpos.1 ∧ wpos.1 < xMax ∧ yMin < wpos.2 ∧ wpos.2 < yMax then
          some (wpos.1 - xMin, yMax - wpos.2)
        else none))

/-- C10: `get_node_cursor_pos` yields `Some` exactly for a window cursor
position that, after the camera transform for non-UI nodes, lies strictly
inside the node rectangle (returned relative to the node); an absent window
cursor position, a position exactly on an edge or outside the rectangle, and a
failed camera transform all yield `None`. -/
theorem get_node_cursor_pos_spec (tx ty sizeX sizeY : ℚ)
    (vtw : ℚ × ℚ → Option (ℚ × ℚ)) :
    (∀ isUi, get_node_cursor_pos none tx ty sizeX sizeY isUi vtw = none) ∧
    (∀ px py,
      (tx - sizeX / 2 < px ∧ px < tx + sizeX / 2 ∧
          ty - sizeY / 2 < py ∧ py < ty + sizeY / 2 →
        get_node_cursor_pos (some (px, py)) tx ty sizeX sizeY true vtw =
          some (px - (tx - sizeX / 2), py - (ty - sizeY / 2))) ∧
      (¬ (tx - sizeX / 2 < px ∧ px < tx + sizeX / 2 ∧
          ty - sizeY / 2 < py ∧ py < ty + sizeY / 2) →
        get_node_cursor_pos (some (px, py)) tx ty sizeX sizeY true vtw = none)) ∧
    (∀ px py, vtw (px, py) = none →
      get_node_cursor_pos (some (px, py)) tx ty sizeX sizeY false vtw = none) ∧
    (∀ px py wx wy, vtw (px, py) = some (wx, wy) →
      (tx - sizeX / 2 < wx ∧ wx < tx + sizeX / 2 ∧
          ty - sizeY / 2 < wy ∧ wy < ty + sizeY / 2 →
        get_node_cursor_pos (some (px, py)) tx ty sizeX sizeY false vtw =
          some (wx - (tx - sizeX / 2), (ty + sizeY / 2) - wy)) ∧
      (¬ (tx - sizeX / 2 < wx ∧ wx < tx + sizeX / 2 ∧
          ty - sizeY / 2 < wy ∧ wy < ty + sizeY / 2) →
        get_node_cursor_pos (some (px, py)) tx ty sizeX sizeY false vtw = none)) := by
  refine ⟨fun isUi => rfl, fun px py => ⟨?_, ?_⟩, fun px py hv => ?_,
    fun px py wx wy hv => ⟨?_, ?_⟩⟩
  · intro hin
    simp [get_node_cursor_pos, hin]
  · intro hout
    simp [get_node_cursor_pos, hout]
  · simp [get_node_cursor_pos, hv]
  · intro hin
    simp [get_node_cursor_pos, hv, hin]
  · intro hout
    simp [get_node_cursor_pos, hv, hout]

/-- C10 witness: a cursor strictly inside a UI node at a concrete position is
returned relative to the node, and a cursor exactly on the node's right edge
yields `None`; an absent cursor position yields `None`. -/
theorem get_node_cursor_pos_spec_witness :
    get_node_cursor_pos none 10 10 4 4 true (fun p => some p) = none ∧
      get_node_cursor_pos (some (9, 10)) 10 10 4 4 true (fun p => some p) =
        some (1, 2) ∧
      get_node_cursor_pos (some (12, 10)) 10 10 4 4 true (fun p => some p) = none := by
  have h := get_node_cursor_pos_spec 10 10 4 4 (fun p => some p)
  refine ⟨h.1 true, ?_, ?_⟩
  · have h2 := (h.2.1 9 10).1 (by norm_num)
    rw [h2]
    norm_num
  · exact (h.2.1 12 10).2 (by norm_num)

end BevyCosmicEdit
